import Mathlib

/-!
Verification of the extraction engine of CalielBR/archive_extractor.

The engine under study is `ArchiveExtractor` in `archive_extractor.py`
(duplicated verbatim in `extrair_arquivos.py`; `unzipfull.py` is an older
near-duplicate of the same engine).  The GUI shell is out of scope.

Shallow embedding conventions:
* paths and message strings are `List Char` (`Str`), file contents are
  `List Nat` (`Bytes`);
* the filesystem is an association list from path to contents;
* the ZIP/RAR/7Z codecs (`zipfile`, `rarfile`, `py7zr`) are oracles in a
  `World`: each maps the raw bytes of an archive to either its entry list
  (name and content, in listed order) or a codec error message
  (`BadZipFile` / `rarfile.Error` / `Bad7zFile`);
* opening a path for writing can fail (`World.writeOk`), which models
  `IOError`/`OSError` raised while writing; reads of existing files succeed;
* Python exceptions are values of `PyErr` threaded in `Except`, and a
  handler run additionally produces the list of observable events `Ev`:
  files written and progress-callback invocations;
* `os.path.getsize(p) / 1024 ** 3` is a fixed pure function of the byte
  length of `p`; the model threads the byte length (`FS.size`) where the
  source threads `file_size_gb`, so "the same float is passed" is mirrored
  by "the same byte count is passed".
-/

/-- Character lists standing for Python strings (paths, messages). -/
abbrev Str := List Char

/-- Byte lists standing for file contents. -/
abbrev Bytes := List Nat

/-- Python `str.lower()` restricted to ASCII, which is all the engine
compares (the suffixes `.zip`, `.rar`, `.7z` and the marker `.zip.`). -/
def strLower (s : Str) : Str := s.map Char.toLower

/-- Boolean test that `sep` occurs at the very start of `s`. -/
def leadsWith : Str → Str → Bool
  | [], _ => true
  | _ :: _, [] => false
  | a :: as, b :: bs => a == b && leadsWith as bs

/-- Python `s.endswith(t)`. -/
def endsWithL (s t : Str) : Bool := leadsWith t.reverse s.reverse

/-- Python `sep in s` (substring containment, for non-empty `sep`). -/
def containsSub (sep : Str) : Str → Bool
  | [] => sep.isEmpty
  | c :: rest => leadsWith sep (c :: rest) || containsSub sep rest

/-- Python `s.split(sep)[0]` for non-empty `sep`: the part of `s` before
the first occurrence of `sep`, or all of `s` when `sep` does not occur. -/
def splitFirst (sep : Str) : Str → Str
  | [] => []
  | c :: rest => if leadsWith sep (c :: rest) then [] else c :: splitFirst sep rest

/-- Python `os.path.basename` on POSIX paths: the part after the last slash. -/
def basenameL (p : Str) : Str := (p.reverse.takeWhile (fun c => c != '/')).reverse

/-- Python `os.path.dirname` on POSIX paths: `p[:p.rfind('/') + 1]` with
trailing slashes stripped unless the head is all slashes. -/
def dirnameL (p : Str) : Str :=
  let head := (p.reverse.dropWhile (fun c => c != '/')).reverse
  if head.isEmpty || head.all (fun c => c == '/') then head
  else (head.reverse.dropWhile (fun c => c == '/')).reverse

/-- Python `os.path.join(folder, nm)` on POSIX paths for one component. -/
def pathJoin (folder nm : Str) : Str :=
  if nm.head? == some '/' then nm
  else if folder.isEmpty then nm
  else if folder.getLast? == some '/' then folder ++ nm
  else folder ++ ['/'] ++ nm

/-- Decimal digit characters of a positive numeral, most significant first;
`fuel`-driven so that the kernel can evaluate it (`fuel = n` suffices). -/
def natCharsAux : Nat → Nat → List Char
  | 0, _ => []
  | _, 0 => []
  | fuel + 1, n + 1 =>
    natCharsAux fuel ((n + 1) / 10) ++ [Nat.digitChar ((n + 1) % 10)]

/-- Decimal rendering of a natural number, as Python `str(n)`. -/
def natChars (n : Nat) : List Char :=
  if n = 0 then ['0'] else natCharsAux n n

/-- Python `f"{n:03d}"`: decimal rendering zero-padded to width 3. -/
def pad3 (n : Nat) : List Char :=
  List.replicate (3 - (natChars n).length) '0' ++ natChars n

/-- Candidate path of split segment `i`, as built in `join_zip_parts`
(`archive_extractor.py` line 52): `os.path.join(folder, f"{base}.zip.{i:03d}")`. -/
def partPath (folder base : Str) (i : Nat) : Str :=
  pathJoin folder (base ++ ".zip.".data ++ pad3 i)

/-- Filesystem: association list from path to file contents.  The first
entry with a given path is the current contents of that path. -/
structure FS where
  entries : List (Str × Bytes)
deriving DecidableEq

/-- Contents of path `p`, when a file exists there. -/
def FS.get (fs : FS) (p : Str) : Option Bytes :=
  (fs.entries.find? (fun e => e.1 == p)).map (fun e => e.2)

/-- Python `os.path.exists(p)` on this filesystem. -/
def FS.hasFile (fs : FS) (p : Str) : Bool := (fs.get p).isSome

/-- Python `os.path.getsize(p)`: byte length of the file at `p`. -/
def FS.size (fs : FS) (p : Str) : Nat := ((fs.get p).getD []).length

/-- Result of `open(p, "wb")` followed by writing `b`: `p` now holds `b`. -/
def FS.write (fs : FS) (p : Str) (b : Bytes) : FS :=
  ⟨(p, b) :: fs.entries.filter (fun e => e.1 != p)⟩

/-- Python `os.remove(p)`. -/
def FS.remove (fs : FS) (p : Str) : FS :=
  ⟨fs.entries.filter (fun e => e.1 != p)⟩

/-- Exceptions the engine can see from the codecs and the OS:
`zipfile.BadZipFile`, `rarfile.Error`, `py7zr.exceptions.Bad7zFile`,
and `IOError`/`OSError` (one constructor, since Python's `IOError` is an
alias of `OSError`).  Each carries `str(e)`. -/
inductive PyErr where
  | badZipFile (m : Str)
  | rarError (m : Str)
  | bad7zFile (m : Str)
  | ioError (m : Str)
deriving DecidableEq

/-- The `str(e)` description carried by an exception. -/
def PyErr.msg : PyErr → Str
  | badZipFile m => m
  | rarError m => m
  | bad7zFile m => m
  | ioError m => m

/-- Observable events of one engine call: a file written under the
destination, or one invocation `progress_callback(i, total, size)` (the
third component is the byte length standing for `file_size_gb`). -/
inductive Ev where
  | wrote (path : Str)
  | prog (idx total sizeBytes : Nat)
deriving DecidableEq

/-- The world an engine call runs in: the filesystem, the three codec
oracles, and the write-success oracle. -/
structure World where
  fs : FS
  zipDecode : Bytes → Except Str (List (Str × Bytes))
  rarDecode : Bytes → Except Str (List (Str × Bytes))
  sevenDecode : Bytes → Except Str (List (Str × Bytes))
  writeOk : Str → Bool

/-- Kind of the terminal message `extract_archive` returns, abstracting
its five return strings (spec section 7 names them NotFound,
UnsupportedFormat, SegmentsMissing, ExtractionFailed, and success). -/
inductive OutcomeKind where
  | success
  | notFound
  | unsupported
  | partsNotFound
  | failed
deriving DecidableEq

/-- Structured form of the message string `extract_archive` returns:
its kind, the path or basename interpolated into it, the size
interpolated into it (byte length; `0` when the message carries no size),
and the underlying error description for failures. -/
structure Outcome where
  kind : OutcomeKind
  name : Str
  sizeBytes : Nat
  errMsg : Str
deriving DecidableEq

/-- The per-entry loop shared verbatim by `_extract_zip`, `_extract_rar`
and `_extract_7z` (`archive_extractor.py` lines 127-130, 142-145,
157-160): for each entry extract it to the destination, then invoke the
progress callback when one was supplied.  Extracting an entry writes
`os.path.join(dest, name)`; if opening that path for writing fails the
loop raises `IOError` at that point. -/
def runEntries (dest : Str) (sizeB : Nat) (hasCb : Bool) (total : Nat) :
    World → Nat → List (Str × Bytes) → World × List Ev × Option PyErr
  | w, _, [] => (w, [], none)
  | w, i, (nm, content) :: rest =>
    let target := pathJoin dest nm
    if w.writeOk target then
      let w1 : World := { w with fs := w.fs.write target content }
      let r := runEntries dest sizeB hasCb total w1 (i + 1) rest
      (r.1, (Ev.wrote target :: (if hasCb then [Ev.prog i total sizeB] else [])) ++ r.2.1, r.2.2)
    else
      (w, [], some (PyErr.ioError ("cannot open for write: ".data ++ target)))

/-- Body shared by the three format handlers: open the container at
`path` (raising `IOError` when the file is gone), enumerate its entries
once (raising the codec's error on a corrupt archive), then run the
per-entry loop.  `Except.ok` is a normal return, `Except.error` a raised
exception. -/
def runHandler (w : World) (decode : Bytes → Except Str (List (Str × Bytes)))
    (mkErr : Str → PyErr) (path dest : Str) (sizeB : Nat) (hasCb : Bool) :
    World × List Ev × Except PyErr Unit :=
  match w.fs.get path with
  | none => (w, [], Except.error (PyErr.ioError ("no such file: ".data ++ path)))
  | some bs =>
    match decode bs with
    | Except.error m => (w, [], Except.error (mkErr m))
    | Except.ok entries =>
      match runEntries dest sizeB hasCb entries.length w 1 entries with
      | (w1, evs, some e) => (w1, evs, Except.error e)
      | (w1, evs, none) => (w1, evs, Except.ok ())

/-- `ArchiveExtractor._extract_zip` (lines 120-133). -/
def extract_zip (w : World) (path dest : Str) (sizeB : Nat) (hasCb : Bool) :
    World × List Ev × Except PyErr Unit :=
  runHandler w w.zipDecode PyErr.badZipFile path dest sizeB hasCb

/-- `ArchiveExtractor._extract_rar` (lines 135-148). -/
def extract_rar (w : World) (path dest : Str) (sizeB : Nat) (hasCb : Bool) :
    World × List Ev × Except PyErr Unit :=
  runHandler w w.rarDecode PyErr.rarError path dest sizeB hasCb

/-- `ArchiveExtractor._extract_7z` (lines 150-163). -/
def extract_7z (w : World) (path dest : Str) (sizeB : Nat) (hasCb : Bool) :
    World × List Ev × Except PyErr Unit :=
  runHandler w w.sevenDecode PyErr.bad7zFile path dest sizeB hasCb

/-- The segment-discovery `while` loop of `join_zip_parts` (lines 51-56),
given enough fuel: collect `{base}.zip.001`, `{base}.zip.002`, ... and
stop at the first index whose file does not exist. -/
def collectGo (fs : FS) (folder base : Str) : Nat → Nat → List Str
  | _, 0 => []
  | i, fuel + 1 =>
    let p := partPath folder base i
    if fs.hasFile p then p :: collectGo fs folder base (i + 1) fuel else []

/-- The collected segment list of `join_zip_parts`.  The Python loop runs
until the first missing index; since only finitely many paths exist,
`fs.entries.length + 1` probes always reach it. -/
def collectParts (fs : FS) (folder base : Str) : List Str :=
  collectGo fs folder base 1 (fs.entries.length + 1)

/-- `ArchiveExtractor.join_zip_parts` (lines 36-71): collect the numbered
parts; if none were found return `None`; otherwise write their
concatenation to `{base}_merged.zip` in the same folder and return that
path, or return `None` when opening the merged file raises `IOError`
(the `except IOError` at line 69 prints and returns `None`). -/
def join_zip_parts (w : World) (folder base : Str) : World × Option Str :=
  let parts := collectParts w.fs folder base
  if parts.isEmpty then (w, none)
  else
    let merged := pathJoin folder (base ++ "_merged.zip".data)
    if w.writeOk merged then
      let contents := parts.foldl (fun acc p => acc ++ ((w.fs.get p).getD [])) []
      ({ w with fs := w.fs.write merged contents }, some merged)
    else (w, none)

/-- Archive format, with the classification rule inlined at
`archive_extractor.py` lines 94-114: the lower-cased path is checked for
the suffixes `.zip`, `.rar`, `.7z` in that order, then for containing
`.zip.`, else the format is unsupported. -/
inductive ArchiveFormat where
  | Zip
  | Rar
  | SevenZip
  | SplitZip
  | Unsupported
deriving DecidableEq

/-- The dispatch chain of `extract_archive` as a pure function of the
path (lines 94-114). -/
def classify (p : Str) : ArchiveFormat :=
  let lower := strLower p
  if endsWithL lower ".zip".data then ArchiveFormat.Zip
  else if endsWithL lower ".rar".data then ArchiveFormat.Rar
  else if endsWithL lower ".7z".data then ArchiveFormat.SevenZip
  else if containsSub ".zip.".data lower then ArchiveFormat.SplitZip
  else ArchiveFormat.Unsupported

/-- Conversion of a handler run into the value `extract_archive` returns:
a normal return becomes the success message with the basename and size
computed at lines 89-91, a raised exception is caught by the
`except (BadZipFile, rarfile.Error, Bad7zFile, IOError, OSError)` at
lines 116-118 and becomes the ExtractionFailed message carrying
`str(e)`. -/
def handlerOutcome : World × List Ev × Except PyErr Unit → Str → Nat →
    World × List Ev × Outcome
  | (w, evs, Except.ok ()), nm, sizeB =>
    (w, evs, { kind := OutcomeKind.success, name := nm, sizeBytes := sizeB, errMsg := [] })
  | (w, evs, Except.error e), nm, sizeB =>
    (w, evs, { kind := OutcomeKind.failed, name := nm, sizeBytes := sizeB, errMsg := e.msg })

/-- `ArchiveExtractor._extract_split_zip` (lines 165-184): derive the
folder and the base name (`basename.split(".zip.")[0]`), join the parts;
on `None` return the parts-not-found message; otherwise extract the
merged file as a ZIP, remove the merged file, and return the result.
When the recursive extraction raises, the `except` at line 183 returns
the error message directly, without removing the merged file.  A raised
`OSError` from `os.remove` is not modelled: removal succeeds. -/
def extract_split_zip (w : World) (path dest : Str) (sizeB : Nat) (hasCb : Bool) :
    World × List Ev × Outcome :=
  let folder := dirnameL path
  let base := splitFirst ".zip.".data (basenameL path)
  match join_zip_parts w folder base with
  | (w1, none) =>
    (w1, [], { kind := OutcomeKind.partsNotFound, name := basenameL path,
               sizeBytes := sizeB, errMsg := [] })
  | (w1, some merged) =>
    match extract_zip w1 merged dest sizeB hasCb with
    | (w2, evs, Except.ok ()) =>
      let w3 := if w2.fs.hasFile merged then { w2 with fs := w2.fs.remove merged } else w2
      (w3, evs, { kind := OutcomeKind.success, name := basenameL merged,
                  sizeBytes := sizeB, errMsg := [] })
    | (w2, evs, Except.error e) =>
      (w2, evs, { kind := OutcomeKind.failed, name := [], sizeBytes := 0, errMsg := e.msg })

/-- `ArchiveExtractor.extract_archive` (lines 73-118): missing source
paths return the not-found message at once; otherwise the size and
basename are computed, the path is classified, and the matching handler
runs with codec and I/O errors caught at this boundary.  `hasCb` is the
truthiness of the optional `progress_callback` argument. -/
def extract_archive (w : World) (path dest : Str) (hasCb : Bool) :
    World × List Ev × Outcome :=
  if !(w.fs.hasFile path) then
    (w, [], { kind := OutcomeKind.notFound, name := path, sizeBytes := 0, errMsg := [] })
  else
    let sizeB := w.fs.size path
    let nm := basenameL path
    match classify path with
    | ArchiveFormat.Zip => handlerOutcome (extract_zip w path dest sizeB hasCb) nm sizeB
    | ArchiveFormat.Rar => handlerOutcome (extract_rar w path dest sizeB hasCb) nm sizeB
    | ArchiveFormat.SevenZip => handlerOutcome (extract_7z w path dest sizeB hasCb) nm sizeB
    | ArchiveFormat.SplitZip => extract_split_zip w path dest sizeB hasCb
    | ArchiveFormat.Unsupported =>
      (w, [], { kind := OutcomeKind.unsupported, name := nm, sizeBytes := sizeB, errMsg := [] })

/-- Canonical event list of a fully successful entry loop starting at
index `i`: each entry's write immediately followed by its progress call. -/
def entryTrace (dest : Str) (total sizeB : Nat) : Nat → List (Str × Bytes) → List Ev
  | _, [] => []
  | i, (nm, _) :: rest =>
    Ev.wrote (pathJoin dest nm) :: Ev.prog i total sizeB ::
      entryTrace dest total sizeB (i + 1) rest

/-- Projection keeping only progress events. -/
def progOf : Ev → Option (Nat × Nat × Nat)
  | Ev.prog i t s => some (i, t, s)
  | Ev.wrote _ => none

/-- Numeric value of a decimal digit character. -/
def charVal (c : Char) : Nat := c.toNat - 48

/-- One step of reading a decimal numeral left to right. -/
def chStep (acc : Nat) (c : Char) : Nat := acc * 10 + charVal c

/-- Numeric value of a decimal numeral given as characters. -/
def chVal (l : List Char) : Nat := l.foldl chStep 0

/-- Concrete world: a corrupt ZIP named `a.zip`. -/
def cwZipBad : World :=
  { fs := ⟨[("a.zip".data, [0, 0, 0])]⟩,
    zipDecode := fun _ => Except.error "bad".data,
    rarDecode := fun _ => Except.error "no".data,
    sevenDecode := fun _ => Except.error "no".data,
    writeOk := fun _ => true }

/-- Concrete world: one split segment whose merged file is a corrupt ZIP. -/
def cwSplitBad : World :=
  { fs := ⟨[("d/A.zip.001".data, [9])]⟩,
    zipDecode := fun _ => Except.error "corrupt".data,
    rarDecode := fun _ => Except.error "no".data,
    sevenDecode := fun _ => Except.error "no".data,
    writeOk := fun _ => true }

/-- Concrete world: one split segment whose merged file is a good ZIP. -/
def cwSplitGood : World :=
  { fs := ⟨[("d/A.zip.001".data, [9])]⟩,
    zipDecode := fun _ => Except.ok [("f".data, [1])],
    rarDecode := fun _ => Except.error "no".data,
    sevenDecode := fun _ => Except.error "no".data,
    writeOk := fun _ => true }

/-- Concrete world: a two-entry ZIP `a.zip` of seven bytes. -/
def cwZip2 : World :=
  { fs := ⟨[("a.zip".data, [0, 0, 0, 0, 0, 0, 0])]⟩,
    zipDecode := fun _ => Except.ok [("f".data, [1]), ("g".data, [2])],
    rarDecode := fun _ => Except.error "no".data,
    sevenDecode := fun _ => Except.error "no".data,
    writeOk := fun _ => true }

/-- Concrete world: two split segments `d/A.zip.001` and `d/A.zip.002`. -/
def cwSegs : World :=
  { fs := ⟨[("d/A.zip.001".data, [1, 2]), ("d/A.zip.002".data, [3])]⟩,
    zipDecode := fun _ => Except.ok [],
    rarDecode := fun _ => Except.error "no".data,
    sevenDecode := fun _ => Except.error "no".data,
    writeOk := fun _ => true }

/-- Concrete world: a five-byte two-entry ZIP `a.zip`. -/
def cwZip5 : World :=
  { fs := ⟨[("a.zip".data, [0, 0, 0, 0, 0])]⟩,
    zipDecode := fun _ => Except.ok [("f".data, []), ("g".data, [])],
    rarDecode := fun _ => Except.error "no".data,
    sevenDecode := fun _ => Except.error "no".data,
    writeOk := fun _ => true }

/-- Concrete world: a split path `d/A.zip.007` with no segment number 001. -/
def cwNoSegs : World :=
  { fs := ⟨[("d/A.zip.007".data, [9])]⟩,
    zipDecode := fun _ => Except.ok [],
    rarDecode := fun _ => Except.error "no".data,
    sevenDecode := fun _ => Except.error "no".data,
    writeOk := fun _ => true }

/-- Concrete world: an empty filesystem. -/
def cwEmpty : World :=
  { fs := ⟨[]⟩,
    zipDecode := fun _ => Except.error "no".data,
    rarDecode := fun _ => Except.error "no".data,
    sevenDecode := fun _ => Except.error "no".data,
    writeOk := fun _ => true }

/-- Concrete world: upper-case split segments `d/A.ZIP.001`, `d/A.ZIP.002`. -/
def cwUpper : World :=
  { fs := ⟨[("d/A.ZIP.001".data, [9]), ("d/A.ZIP.002".data, [8])]⟩,
    zipDecode := fun _ => Except.ok [],
    rarDecode := fun _ => Except.error "no".data,
    sevenDecode := fun _ => Except.error "no".data,
    writeOk := fun _ => true }

/-- Concrete world: one split segment, but the merged path cannot be
opened for writing. -/
def cwNoWrite : World :=
  { fs := ⟨[("d/A.zip.001".data, [9])]⟩,
    zipDecode := fun _ => Except.ok [],
    rarDecode := fun _ => Except.error "no".data,
    sevenDecode := fun _ => Except.error "no".data,
    writeOk := fun s => !(s == "d/A_merged.zip".data) }

theorem charVal_digitChar {d : Nat} (h : d < 10) : charVal (Nat.digitChar d) = d := by
  interval_cases d <;> decide

theorem natCharsAux_foldl :
    ∀ (fuel n acc : Nat), n ≤ fuel →
      (natCharsAux fuel n).foldl chStep acc =
        acc * 10 ^ (natCharsAux fuel n).length + n := by
  intro fuel
  induction fuel with
  | zero =>
    intro n acc h
    have hn : n = 0 := Nat.le_zero.mp h
    subst hn
    simp [natCharsAux]
  | succ f ih =>
    intro n acc h
    match n with
    | 0 => simp [natCharsAux]
    | Nat.succ m =>
      have hdiv : (m + 1) / 10 < m + 1 := Nat.div_lt_self (Nat.succ_pos m) (by norm_num)
      rw [natCharsAux, List.foldl_append,
        ih ((m + 1) / 10) acc (by omega), List.length_append]
      have hmod : (m + 1) % 10 < 10 := Nat.mod_lt _ (by norm_num)
      simp only [List.foldl_cons, List.foldl_nil, chStep, charVal_digitChar hmod,
        List.length_cons, List.length_nil, Nat.zero_add]
      have hdm : 10 * ((m + 1) / 10) + (m + 1) % 10 = m + 1 := Nat.div_add_mod (m + 1) 10
      rw [pow_succ, ← Nat.mul_assoc]
      omega

theorem chVal_natChars (n : Nat) : chVal (natChars n) = n := by
  unfold chVal natChars
  by_cases h : n = 0
  · subst h; decide
  · rw [if_neg h, natCharsAux_foldl n n 0 (Nat.le_refl n)]
    simp

theorem foldl_replicate_zeroCh : ∀ k : Nat, (List.replicate k '0').foldl chStep 0 = 0 := by
  intro k
  induction k with
  | zero => rfl
  | succ m ih =>
    rw [List.replicate_succ, List.foldl_cons, show chStep 0 '0' = 0 from by decide]
    exact ih

theorem chVal_pad3 (n : Nat) : chVal (pad3 n) = n := by
  unfold pad3 chVal
  rw [List.foldl_append, foldl_replicate_zeroCh]
  exact chVal_natChars n

theorem pad3_inj {i j : Nat} (h : pad3 i = pad3 j) : i = j := by
  have hi := chVal_pad3 i
  rw [h, chVal_pad3 j] at hi
  omega

theorem splitFirst_of_not_contains (sep : Str) :
    ∀ s, containsSub sep s = false → splitFirst sep s = s := by
  intro s
  induction s with
  | nil => intro _; rfl
  | cons c rest ih =>
    intro h
    unfold containsSub at h
    rw [Bool.or_eq_false_iff] at h
    unfold splitFirst
    rw [if_neg (by simp [h.1]), ih h.2]

theorem leadsWith_of_le :
    ∀ (s a b : Str), leadsWith a s = true → leadsWith b s = true →
      a.length ≤ b.length → leadsWith a b = true := by
  intro s
  induction s with
  | nil =>
    intro a b ha _ _
    cases a with
    | nil => rfl
    | cons x xs => exact absurd ha (by simp [leadsWith])
  | cons c rest ih =>
    intro a b ha hb hle
    cases a with
    | nil => rfl
    | cons x xs =>
      cases b with
      | nil => simp at hle
      | cons y ys =>
        unfold leadsWith at ha hb ⊢
        rw [Bool.and_eq_true] at ha hb
        have hx : x = c := eq_of_beq ha.1
        have hy : y = c := eq_of_beq hb.1
        subst hx hy
        rw [Bool.and_eq_true]
        exact ⟨by simp, ih xs ys ha.2 hb.2 (by simpa using hle)⟩

theorem suffix_compat {l t1 t2 : Str} (h1 : endsWithL l t1 = true)
    (h2 : endsWithL l t2 = true) (hlen : t1.length ≤ t2.length) :
    leadsWith t1.reverse t2.reverse = true :=
  leadsWith_of_le l.reverse t1.reverse t2.reverse h1 h2 (by simpa using hlen)

theorem pathJoin_cancel {folder a b : Str} (hhead : a.head? = b.head?)
    (h : pathJoin folder a = pathJoin folder b) : a = b := by
  unfold pathJoin at h
  rw [hhead] at h
  by_cases h1 : (b.head? == some '/') = true
  · rwa [if_pos h1, if_pos h1] at h
  · rw [if_neg h1, if_neg h1] at h
    by_cases h2 : folder.isEmpty = true
    · rwa [if_pos h2, if_pos h2] at h
    · rw [if_neg h2, if_neg h2] at h
      by_cases h3 : (folder.getLast? == some '/') = true
      · rw [if_pos h3, if_pos h3] at h
        exact List.append_cancel_left h
      · rw [if_neg h3, if_neg h3] at h
        exact List.append_cancel_left h

theorem partPath_inj {folder base : Str} {i j : Nat}
    (h : partPath folder base i = partPath folder base j) : i = j := by
  unfold partPath at h
  have hhead : (base ++ ".zip.".data ++ pad3 i).head? =
      (base ++ ".zip.".data ++ pad3 j).head? := by
    cases base <;> rfl
  have hnm := pathJoin_cancel hhead h
  exact pad3_inj (List.append_cancel_left hnm)

theorem hasFile_mem_keys {fs : FS} {p : Str} (h : fs.hasFile p = true) :
    p ∈ fs.entries.map Prod.fst := by
  unfold FS.hasFile FS.get at h
  cases hf : fs.entries.find? (fun e => e.1 == p) with
  | none => rw [hf] at h; simp at h
  | some e =>
    have hmem := List.mem_of_find?_eq_some hf
    have hbeq := List.find?_some hf
    have hep : e.1 = p := eq_of_beq hbeq
    exact hep ▸ List.mem_map_of_mem Prod.fst hmem

theorem segs_le_entries (fs : FS) (folder base : Str) (m : Nat)
    (hex : ∀ j, 1 ≤ j → j ≤ m → fs.hasFile (partPath folder base j) = true) :
    m ≤ fs.entries.length := by
  have hinj : Function.Injective (fun j : Nat => partPath folder base (j + 1)) := by
    intro a b hab
    have : a + 1 = b + 1 := partPath_inj hab
    omega
  have hnd : ((List.range m).map (fun j => partPath folder base (j + 1))).Nodup :=
    List.Nodup.map hinj (List.nodup_range m)
  have hsub : ((List.range m).map (fun j => partPath folder base (j + 1))) ⊆
      fs.entries.map Prod.fst := by
    intro x hx
    rw [List.mem_map] at hx
    obtain ⟨n, hn, rfl⟩ := hx
    rw [List.mem_range] at hn
    exact hasFile_mem_keys (hex (n + 1) (by omega) (by omega))
  have hle := (hnd.subperm hsub).length_le
  simpa using hle

theorem collectGo_eq (fs : FS) (folder base : Str) :
    ∀ (k i fuel : Nat), k < fuel →
      (∀ j, j < k → fs.hasFile (partPath folder base (i + j)) = true) →
      fs.hasFile (partPath folder base (i + k)) = false →
      collectGo fs folder base i fuel =
        (List.range k).map (fun j => partPath folder base (i + j)) := by
  intro k
  induction k with
  | zero =>
    intro i fuel hf _ hmiss
    match fuel, hf with
    | fuel + 1, _ =>
      unfold collectGo
      rw [if_neg (by simpa using hmiss)]
      rfl
  | succ k ih =>
    intro i fuel hf hex hmiss
    match fuel, hf with
    | fuel + 1, hf =>
      unfold collectGo
      have h0 : fs.hasFile (partPath folder base i) = true := by
        simpa using hex 0 (by omega)
      rw [if_pos h0]
      have hex1 : ∀ j, j < k → fs.hasFile (partPath folder base (i + 1 + j)) = true := by
        intro j hj
        have := hex (j + 1) (by omega)
        rwa [show i + (j + 1) = i + 1 + j by omega] at this
      have hmiss1 : fs.hasFile (partPath folder base (i + 1 + k)) = false := by
        rwa [show i + (k + 1) = i + 1 + k by omega] at hmiss
      rw [ih (i + 1) fuel (by omega) hex1 hmiss1, List.range_succ_eq_map, List.map_cons,
        List.map_map]
      refine congrArg₂ List.cons (by rw [Nat.add_zero]) ?_
      refine List.map_congr_left ?_
      intro j _
      simp only [Function.comp]
      rw [show i + 1 + j = i + Nat.succ j by omega]

theorem collectParts_eq (fs : FS) (folder base : Str) (m : Nat)
    (hex : ∀ j, 1 ≤ j → j ≤ m → fs.hasFile (partPath folder base j) = true)
    (hmiss : fs.hasFile (partPath folder base (m + 1)) = false) :
    collectParts fs folder base =
      (List.range m).map (fun j => partPath folder base (1 + j)) := by
  unfold collectParts
  refine collectGo_eq fs folder base m 1 (fs.entries.length + 1) ?_ ?_ ?_
  · have := segs_le_entries fs folder base m hex
    omega
  · intro j hj
    have := hex (j + 1) (by omega) (by omega)
    rwa [show j + 1 = 1 + j by omega] at this
  · rwa [show m + 1 = 1 + m by omega] at hmiss

theorem foldl_append_eq_flatten (f : Str → Bytes) :
    ∀ (l : List Str) (acc : Bytes),
      l.foldl (fun a p => a ++ f p) acc = acc ++ (l.map f).flatten := by
  intro l
  induction l with
  | nil => intro acc; simp
  | cons x xs ih =>
    intro acc
    rw [List.foldl_cons, ih, List.map_cons, List.flatten_cons, List.append_assoc]

theorem hasFile_remove (fs : FS) (p : Str) : (fs.remove p).hasFile p = false := by
  have hnone : List.find? (fun e => e.1 == p) (fs.entries.filter (fun e => e.1 != p)) = none := by
    rw [List.find?_eq_none]
    intro x hx
    rw [List.mem_filter] at hx
    have h2 := hx.2
    rw [bne_iff_ne] at h2
    simpa using h2
  simp [FS.remove, FS.hasFile, FS.get, hnone]

theorem runEntries_prog_size (dest : Str) (sizeB : Nat) (hasCb : Bool) (total : Nat) :
    ∀ (l : List (Str × Bytes)) (w : World) (i a b s : Nat),
      Ev.prog a b s ∈ (runEntries dest sizeB hasCb total w i l).2.1 → s = sizeB := by
  intro l
  induction l with
  | nil =>
    intro w i a b s h
    simp [runEntries] at h
  | cons e rest ih =>
    intro w i a b s h
    obtain ⟨nm, content⟩ := e
    unfold runEntries at h
    by_cases hw : w.writeOk (pathJoin dest nm) = true
    · rw [if_pos hw] at h
      simp only [List.mem_append, List.mem_cons] at h
      rcases h with (h | h) | h
      · exact absurd h (by simp)
      · cases hasCb with
        | true =>
          simp only [if_true, List.mem_singleton, Ev.prog.injEq] at h
          exact h.2.2
        | false => simp at h
      · exact ih _ _ _ _ _ h
    · rw [if_neg hw] at h
      simp at h

theorem runEntries_ok_trace (dest : Str) (sizeB : Nat) (total : Nat) :
    ∀ (l : List (Str × Bytes)) (w w2 : World) (i : Nat) (evs : List Ev),
      runEntries dest sizeB true total w i l = (w2, evs, none) →
      evs = entryTrace dest total sizeB i l := by
  intro l
  induction l with
  | nil =>
    intro w w2 i evs h
    unfold runEntries at h
    injection h with h1 h2
    injection h2 with h2 h3
    exact h2.symm
  | cons e rest ih =>
    intro w w2 i evs h
    obtain ⟨nm, content⟩ := e
    unfold runEntries at h
    by_cases hw : w.writeOk (pathJoin dest nm) = true
    · rw [if_pos hw] at h
      injection h with h1 h2
      injection h2 with h2 h3
      have hrest : runEntries dest sizeB true total
          { w with fs := w.fs.write (pathJoin dest nm) content } (i + 1) rest =
          ((runEntries dest sizeB true total
            { w with fs := w.fs.write (pathJoin dest nm) content } (i + 1) rest).1,
           (runEntries dest sizeB true total
            { w with fs := w.fs.write (pathJoin dest nm) content } (i + 1) rest).2.1,
           none) := by
        rw [← h3]
      have htail := ih _ _ _ _ hrest
      rw [← h2, htail]
      simp [entryTrace]
    · rw [if_neg hw] at h
      injection h with h1 h2
      injection h2 with h2 h3
      exact absurd h3.symm (by simp)

theorem entryTrace_filterMap (dest : Str) (total sizeB : Nat) :
    ∀ (l : List (Str × Bytes)) (i : Nat),
      (entryTrace dest total sizeB i l).filterMap progOf =
        (List.range l.length).map (fun j => (i + j, total, sizeB)) := by
  intro l
  induction l with
  | nil => intro i; rfl
  | cons e rest ih =>
    intro i
    obtain ⟨nm, c⟩ := e
    rw [entryTrace, List.filterMap_cons, List.filterMap_cons]
    simp only [progOf]
    rw [ih (i + 1), List.length_cons, List.range_succ_eq_map, List.map_cons, List.map_map]
    refine congrArg₂ List.cons (by rw [Nat.add_zero]) ?_
    refine List.map_congr_left ?_
    intro j _
    simp only [Function.comp]
    rw [show i + 1 + j = i + Nat.succ j by omega]

theorem runHandler_prog_size (w : World) (decode : Bytes → Except Str (List (Str × Bytes)))
    (mkErr : Str → PyErr) (path dest : Str) (sizeB : Nat) (hasCb : Bool)
    (w2 : World) (evs : List Ev) (r : Except PyErr Unit)
    (h : runHandler w decode mkErr path dest sizeB hasCb = (w2, evs, r)) :
    ∀ a b s, Ev.prog a b s ∈ evs → s = sizeB := by
  intro a b s hmem
  unfold runHandler at h
  split at h
  · injection h with h1 h2
    injection h2 with h2 h3
    subst h2
    simp at hmem
  · split at h
    · injection h with h1 h2
      injection h2 with h2 h3
      subst h2
      simp at hmem
    · rename_i bs hbs entries hentries
      split at h
      · rename_i w1 evs1 e hre
        injection h with h1 h2
        injection h2 with h2 h3
        subst h2
        refine runEntries_prog_size dest sizeB hasCb entries.length entries w 1 a b s ?_
        rw [hre]
        exact hmem
      · rename_i w1 evs1 hre
        injection h with h1 h2
        injection h2 with h2 h3
        subst h2
        refine runEntries_prog_size dest sizeB hasCb entries.length entries w 1 a b s ?_
        rw [hre]
        exact hmem

/-- C8: when the source path does not exist at call time, `extract_archive`
returns the not-found outcome at once, with an unchanged world, no
progress events (the callback is never invoked), and no size in the
message (`sizeBytes = 0`: the message interpolates only the path, and
`os.path.getsize` is never reached). -/
theorem extract_archive_missing_source (w : World) (path dest : Str) (hasCb : Bool)
    (h : w.fs.hasFile path = false) :
    extract_archive w path dest hasCb =
      (w, [], { kind := OutcomeKind.notFound, name := path, sizeBytes := 0, errMsg := [] }) := by
  unfold extract_archive
  rw [h]
  rfl

theorem extract_archive_missing_source_witness :
    extract_archive cwEmpty "/tmp/does_not_exist.zip".data "out".data true =
      (cwEmpty, [],
       { kind := OutcomeKind.notFound, name := "/tmp/does_not_exist.zip".data,
         sizeBytes := 0, errMsg := [] }) :=
  extract_archive_missing_source cwEmpty "/tmp/does_not_exist.zip".data "out".data true (by decide)

/-- C4: classification is a pure function of the lower-cased path, checked
in order: a lower-cased suffix `.zip`, `.rar` or `.7z` gives Zip, Rar or
SevenZip unconditionally (even when `.zip.` occurs elsewhere in the
path), containing `.zip.` without one of those suffixes gives SplitZip,
and anything else is Unsupported. -/
theorem classify_rules (p : Str) :
    (∀ q, strLower p = strLower q → classify p = classify q) ∧
    (endsWithL (strLower p) ".zip".data = true → classify p = ArchiveFormat.Zip) ∧
    (endsWithL (strLower p) ".rar".data = true → classify p = ArchiveFormat.Rar) ∧
    (endsWithL (strLower p) ".7z".data = true → classify p = ArchiveFormat.SevenZip) ∧
    (endsWithL (strLower p) ".zip".data = false → endsWithL (strLower p) ".rar".data = false →
      endsWithL (strLower p) ".7z".data = false →
      containsSub ".zip.".data (strLower p) = true → classify p = ArchiveFormat.SplitZip) ∧
    (endsWithL (strLower p) ".zip".data = false → endsWithL (strLower p) ".rar".data = false →
      endsWithL (strLower p) ".7z".data = false →
      containsSub ".zip.".data (strLower p) = false →
      classify p = ArchiveFormat.Unsupported) := by
  refine ⟨?_, ?_, ?_, ?_, ?_, ?_⟩
  · intro q hq
    unfold classify
    rw [hq]
  · intro h
    unfold classify
    rw [if_pos h]
  · intro h
    have hz : endsWithL (strLower p) ".zip".data = false := by
      by_cases hc : endsWithL (strLower p) ".zip".data = true
      · have := suffix_compat hc h (by decide)
        exact absurd this (by decide)
      · exact Bool.not_eq_true _ ▸ Bool.eq_false_iff.mpr hc
    unfold classify
    rw [if_neg (by rw [hz]; exact Bool.false_ne_true), if_pos h]
  · intro h
    have hz : endsWithL (strLower p) ".zip".data = false := by
      by_cases hc : endsWithL (strLower p) ".zip".data = true
      · have := suffix_compat h hc (by decide)
        exact absurd this (by decide)
      · exact Bool.eq_false_iff.mpr hc
    have hr : endsWithL (strLower p) ".rar".data = false := by
      by_cases hc : endsWithL (strLower p) ".rar".data = true
      · have := suffix_compat h hc (by decide)
        exact absurd this (by decide)
      · exact Bool.eq_false_iff.mpr hc
    unfold classify
    rw [if_neg (by rw [hz]; exact Bool.false_ne_true),
      if_neg (by rw [hr]; exact Bool.false_ne_true), if_pos h]
  · intro h1 h2 h3 h4
    unfold classify
    rw [if_neg (by rw [h1]; exact Bool.false_ne_true),
      if_neg (by rw [h2]; exact Bool.false_ne_true),
      if_neg (by rw [h3]; exact Bool.false_ne_true), if_pos h4]
  · intro h1 h2 h3 h4
    unfold classify
    rw [if_neg (by rw [h1]; exact Bool.false_ne_true),
      if_neg (by rw [h2]; exact Bool.false_ne_true),
      if_neg (by rw [h3]; exact Bool.false_ne_true),
      if_neg (by rw [h4]; exact Bool.false_ne_true)]

theorem classify_rules_witness :
    classify "x.zip.001.ZIP".data = ArchiveFormat.Zip ∧
    classify "x.zip.001".data = ArchiveFormat.SplitZip ∧
    classify "notes.txt".data = ArchiveFormat.Unsupported :=
  ⟨(classify_rules "x.zip.001.ZIP".data).2.1 (by decide),
   (classify_rules "x.zip.001".data).2.2.2.2.1 (by decide) (by decide) (by decide) (by decide),
   (classify_rules "notes.txt".data).2.2.2.2.2 (by decide) (by decide) (by decide) (by decide)⟩

/-- C7: on a SplitZip path whose first segment `{base}.zip.001` does not
exist, `join_zip_parts` finds no parts and returns `None` with the world
unchanged (so no merged file is created), and `extract_archive` returns
the parts-not-found (SegmentsMissing) outcome.  The first conjunct pins
the probed path down to the literal `{base}.zip.001` shape. -/
theorem split_missing_first_segment (w : World) (p d : Str) (cb : Bool)
    (hex : w.fs.hasFile p = true)
    (hcls : classify p = ArchiveFormat.SplitZip)
    (h1 : w.fs.hasFile (partPath (dirnameL p) (splitFirst ".zip.".data (basenameL p)) 1) = false) :
    partPath (dirnameL p) (splitFirst ".zip.".data (basenameL p)) 1 =
      pathJoin (dirnameL p) (splitFirst ".zip.".data (basenameL p) ++ ".zip.001".data) ∧
    join_zip_parts w (dirnameL p) (splitFirst ".zip.".data (basenameL p)) = (w, none) ∧
    extract_archive w p d cb =
      (w, [], { kind := OutcomeKind.partsNotFound, name := basenameL p,
                sizeBytes := w.fs.size p, errMsg := [] }) := by
  have hpad : ".zip.".data ++ pad3 1 = ".zip.001".data := by decide
  have hpp : partPath (dirnameL p) (splitFirst ".zip.".data (basenameL p)) 1 =
      pathJoin (dirnameL p) (splitFirst ".zip.".data (basenameL p) ++ ".zip.001".data) := by
    unfold partPath
    rw [List.append_assoc, hpad]
  have hjoin : join_zip_parts w (dirnameL p) (splitFirst ".zip.".data (basenameL p)) =
      (w, none) := by
    simp [join_zip_parts, collectParts, collectGo, h1]
  refine ⟨hpp, hjoin, ?_⟩
  unfold extract_archive
  rw [hex, hcls]
  simp only [Bool.not_true, Bool.false_eq_true, if_false, extract_split_zip]
  rw [hjoin]

theorem split_missing_first_segment_witness :
    extract_archive cwNoSegs "d/A.zip.007".data "out".data true =
      (cwNoSegs, [], { kind := OutcomeKind.partsNotFound, name := "A.zip.007".data,
                       sizeBytes := 1, errMsg := [] }) := by
  have h := split_missing_first_segment cwNoSegs "d/A.zip.007".data "out".data true
    (by decide) (by decide) (by decide)
  exact h.2.2

/-- C9: when a path is classified SplitZip through its lower-cased form
but the original basename spells the marker in upper or mixed case, the
base name derived by `basename.split(".zip.")[0]` is the entire basename
(the split never fires on the original-case string), so the joiner
probes `{entire-basename}.zip.001`; when that probe does not exist the
job ends in the parts-not-found (SegmentsMissing) outcome, even though
correctly named upper-case segments may sit in the directory. -/
theorem split_marker_case_mismatch (w : World) (p d : Str) (cb : Bool)
    (hex : w.fs.hasFile p = true)
    (hcls : classify p = ArchiveFormat.SplitZip)
    (hnosub : containsSub ".zip.".data (basenameL p) = false)
    (h1 : w.fs.hasFile (partPath (dirnameL p) (basenameL p) 1) = false) :
    splitFirst ".zip.".data (basenameL p) = basenameL p ∧
    extract_archive w p d cb =
      (w, [], { kind := OutcomeKind.partsNotFound, name := basenameL p,
                sizeBytes := w.fs.size p, errMsg := [] }) := by
  have hbase := splitFirst_of_not_contains ".zip.".data (basenameL p) hnosub
  have hjoin : join_zip_parts w (dirnameL p) (basenameL p) = (w, none) := by
    simp [join_zip_parts, collectParts, collectGo, h1]
  refine ⟨hbase, ?_⟩
  unfold extract_archive
  rw [hex, hcls]
  simp only [Bool.not_true, Bool.false_eq_true, if_false, extract_split_zip]
  rw [hbase, hjoin]

theorem split_marker_case_mismatch_witness :
    splitFirst ".zip.".data (basenameL "d/A.ZIP.001".data) = "A.ZIP.001".data ∧
    extract_archive cwUpper "d/A.ZIP.001".data "out".data true =
      (cwUpper, [], { kind := OutcomeKind.partsNotFound, name := "A.ZIP.001".data,
                      sizeBytes := 1, errMsg := [] }) := by
  have h := split_marker_case_mismatch cwUpper "d/A.ZIP.001".data "out".data true
    (by decide) (by decide) (by decide) (by decide)
  exact h

/-- C10: when at least the first segment exists but opening the merged
file for writing raises `IOError`, `join_zip_parts` catches it and
returns the same `None` as in the zero-segment case, so
`extract_archive` reports the failure as the parts-not-found
(SegmentsMissing) outcome rather than as an ExtractionFailed outcome. -/
theorem join_write_error_reports_missing (w : World) (p d : Str) (cb : Bool)
    (hex : w.fs.hasFile p = true)
    (hcls : classify p = ArchiveFormat.SplitZip)
    (h1 : w.fs.hasFile (partPath (dirnameL p) (splitFirst ".zip.".data (basenameL p)) 1) = true)
    (hw : w.writeOk (pathJoin (dirnameL p)
        (splitFirst ".zip.".data (basenameL p) ++ "_merged.zip".data)) = false) :
    join_zip_parts w (dirnameL p) (splitFirst ".zip.".data (basenameL p)) = (w, none) ∧
    extract_archive w p d cb =
      (w, [], { kind := OutcomeKind.partsNotFound, name := basenameL p,
                sizeBytes := w.fs.size p, errMsg := [] }) := by
  have hjoin : join_zip_parts w (dirnameL p) (splitFirst ".zip.".data (basenameL p)) =
      (w, none) := by
    simp [join_zip_parts, collectParts, collectGo, h1, hw]
  refine ⟨hjoin, ?_⟩
  unfold extract_archive
  rw [hex, hcls]
  simp only [Bool.not_true, Bool.false_eq_true, if_false, extract_split_zip]
  rw [hjoin]

theorem join_write_error_reports_missing_witness :
    join_zip_parts cwNoWrite "d".data "A".data = (cwNoWrite, none) ∧
    extract_archive cwNoWrite "d/A.zip.001".data "out".data true =
      (cwNoWrite, [], { kind := OutcomeKind.partsNotFound, name := "A.zip.001".data,
                        sizeBytes := 1, errMsg := [] }) := by
  have h := join_write_error_reports_missing cwNoWrite "d/A.zip.001".data "out".data true
    (by decide) (by decide) (by decide) (by decide)
  exact h

theorem handlerOutcome_evs (t : World × List Ev × Except PyErr Unit) (nm : Str) (sizeB : Nat) :
    (handlerOutcome t nm sizeB).2.1 = t.2.1 := by
  rcases t with ⟨tw, tevs, tr⟩
  cases tr with
  | ok u => cases u; rfl
  | error e => rfl

theorem handlerOutcome_world (t : World × List Ev × Except PyErr Unit) (nm : Str) (sizeB : Nat) :
    (handlerOutcome t nm sizeB).1 = t.1 := by
  rcases t with ⟨tw, tevs, tr⟩
  cases tr with
  | ok u => cases u; rfl
  | error e => rfl

theorem extract_split_zip_prog_size (w : World) (p d : Str) (sizeB : Nat) (cb : Bool)
    (w2 : World) (evs : List Ev) (out : Outcome)
    (h : extract_split_zip w p d sizeB cb = (w2, evs, out)) :
    ∀ a b s, Ev.prog a b s ∈ evs → s = sizeB := by
  intro a b s hmem
  simp only [extract_split_zip] at h
  split at h
  · have hevs := congrArg (fun t => t.2.1) h
    simp only at hevs
    rw [← hevs] at hmem
    simp at hmem
  · rename_i w1 merged hjoin
    split at h
    · rename_i w2' evs' hrun
      have hevs := congrArg (fun t => t.2.1) h
      simp only at hevs
      rw [← hevs] at hmem
      exact runHandler_prog_size w1 w1.zipDecode PyErr.badZipFile merged d sizeB cb
        _ _ _ hrun a b s hmem
    · rename_i w2' evs' e hrun
      have hevs := congrArg (fun t => t.2.1) h
      simp only at hevs
      rw [← hevs] at hmem
      exact runHandler_prog_size w1 w1.zipDecode PyErr.badZipFile merged d sizeB cb
        _ _ _ hrun a b s hmem

/-- C6: every progress invocation of one `extract_archive` job carries,
as its size argument, the byte length of the source path handed to the
call — the quantity computed once at lines 89-90 before extraction
starts.  For SplitZip jobs that is the size of the first referenced
archive path (the argument), not the merged file's size and not the sum
of the segments, because `_extract_split_zip` forwards `file_size_gb`
unchanged into the recursive ZIP extraction. -/
theorem progress_size_constant (w : World) (p d : Str) (cb : Bool)
    (w2 : World) (evs : List Ev) (out : Outcome)
    (h : extract_archive w p d cb = (w2, evs, out)) :
    ∀ a b s, Ev.prog a b s ∈ evs → s = w.fs.size p := by
  intro a b s hmem
  unfold extract_archive at h
  by_cases hex : w.fs.hasFile p = true
  · rw [hex] at h
    simp only [Bool.not_true, Bool.false_eq_true, if_false] at h
    cases hcls : classify p with
    | Zip =>
      rw [hcls] at h
      have hevs := congrArg (fun t => t.2.1) h
      simp only at hevs
      rw [handlerOutcome_evs] at hevs
      rw [← hevs] at hmem
      exact runHandler_prog_size w w.zipDecode PyErr.badZipFile p d (w.fs.size p) cb
        _ _ _ rfl a b s hmem
    | Rar =>
      rw [hcls] at h
      have hevs := congrArg (fun t => t.2.1) h
      simp only at hevs
      rw [handlerOutcome_evs] at hevs
      rw [← hevs] at hmem
      exact runHandler_prog_size w w.rarDecode PyErr.rarError p d (w.fs.size p) cb
        _ _ _ rfl a b s hmem
    | SevenZip =>
      rw [hcls] at h
      have hevs := congrArg (fun t => t.2.1) h
      simp only at hevs
      rw [handlerOutcome_evs] at hevs
      rw [← hevs] at hmem
      exact runHandler_prog_size w w.sevenDecode PyErr.bad7zFile p d (w.fs.size p) cb
        _ _ _ rfl a b s hmem
    | SplitZip =>
      rw [hcls] at h
      exact extract_split_zip_prog_size w p d (w.fs.size p) cb w2 evs out h a b s hmem
    | Unsupported =>
      rw [hcls] at h
      have hevs := congrArg (fun t => t.2.1) h
      simp only at hevs
      rw [← hevs] at hmem
      simp at hmem
  · rw [Bool.eq_false_iff.mpr hex] at h
    have hevs := congrArg (fun t => t.2.1) h
    simp only at hevs
    rw [← hevs] at hmem
    simp at hmem

theorem progress_size_constant_witness : (5 : Nat) = cwZip5.fs.size "a.zip".data := by
  refine progress_size_constant cwZip5 "a.zip".data "out".data true _ _ _ rfl 1 2 5 ?_
  decide

/-- C3: a successful handler run with a supplied callback produces
exactly the canonical event interleaving: each of the K entries is
written and the callback is invoked immediately after that write, so the
progress invocations are exactly `(1, K, size)` through `(K, K, size)` —
K calls, `entryIndex` taking each value `1..K` exactly once in ascending
order, `entryTotal = K` on every call, and every call after its entry
was written, never before.  `runHandler` is the body of `_extract_zip`,
`_extract_rar` and `_extract_7z`, and also runs the recursive ZIP pass
of a SplitZip job. -/
theorem runHandler_success_progress (w : World)
    (decode : Bytes → Except Str (List (Str × Bytes))) (mkErr : Str → PyErr)
    (path dest : Str) (sizeB : Nat) (bs : Bytes) (entries : List (Str × Bytes))
    (w2 : World) (evs : List Ev)
    (hget : w.fs.get path = some bs) (hdec : decode bs = Except.ok entries)
    (hrun : runHandler w decode mkErr path dest sizeB true = (w2, evs, Except.ok ())) :
    evs = entryTrace dest entries.length sizeB 1 entries ∧
    evs.filterMap progOf =
      (List.range entries.length).map (fun j => (j + 1, entries.length, sizeB)) := by
  unfold runHandler at hrun
  split at hrun
  · rename_i hnone
    rw [hget] at hnone
    cases hnone
  · rename_i bs1 hbs
    rw [hget] at hbs
    injection hbs with hbs
    subst hbs
    split at hrun
    · rename_i m hm
      rw [hdec] at hm
      cases hm
    · rename_i entries1 hentries
      rw [hdec] at hentries
      injection hentries with hentries
      subst hentries
      split at hrun
      · rename_i w1 evs1 e hre
        have := congrArg (fun t => t.2.2) hrun
        simp only at this
        cases this
      · rename_i w1 evs1 hre
        have hevs : evs1 = evs := by
          have := congrArg (fun t => t.2.1) hrun
          simpa using this
        subst hevs
        have ht := runEntries_ok_trace dest sizeB entries.length entries w w1 1 evs1 hre
        refine ⟨ht, ?_⟩
        rw [ht, entryTrace_filterMap]
        have hcomm : ∀ j : Nat, 1 + j = j + 1 := fun j => Nat.add_comm 1 j
        simp only [hcomm]

theorem runHandler_success_progress_witness :
    [Ev.wrote "out/f".data, Ev.prog 1 2 7, Ev.wrote "out/g".data,
        Ev.prog 2 2 7].filterMap progOf =
      (List.range 2).map (fun j => (j + 1, 2, 7)) := by
  have h := runHandler_success_progress cwZip2 cwZip2.zipDecode PyErr.badZipFile
    "a.zip".data "out".data 7 [0, 0, 0, 0, 0, 0, 0] [("f".data, [1]), ("g".data, [2])]
    _ _ rfl rfl rfl
  exact h.2

/-- C1: `extract_archive` is a total function into outcomes — in the
model no exception propagates out of it by construction — and every
exception a format handler raises (codec errors `BadZipFile`,
`rarfile.Error`, `Bad7zFile`, and `IOError`/`OSError` from
open/enumerate/extract) is caught at the engine boundary and converted
into an ExtractionFailed outcome carrying the underlying error's
description `str(e)`.  The four conjuncts cover the Zip, Rar and
SevenZip handlers and the recursive ZIP pass of a SplitZip job, whose
inner `except` produces the failed outcome directly. -/
theorem extract_archive_converts_handler_errors (w : World) (p d : Str) (cb : Bool)
    (e : PyErr) (w2 : World) (evs : List Ev)
    (hex : w.fs.hasFile p = true) :
    (classify p = ArchiveFormat.Zip →
      extract_zip w p d (w.fs.size p) cb = (w2, evs, Except.error e) →
      extract_archive w p d cb = (w2, evs,
        { kind := OutcomeKind.failed, name := basenameL p,
          sizeBytes := w.fs.size p, errMsg := e.msg })) ∧
    (classify p = ArchiveFormat.Rar →
      extract_rar w p d (w.fs.size p) cb = (w2, evs, Except.error e) →
      extract_archive w p d cb = (w2, evs,
        { kind := OutcomeKind.failed, name := basenameL p,
          sizeBytes := w.fs.size p, errMsg := e.msg })) ∧
    (classify p = ArchiveFormat.SevenZip →
      extract_7z w p d (w.fs.size p) cb = (w2, evs, Except.error e) →
      extract_archive w p d cb = (w2, evs,
        { kind := OutcomeKind.failed, name := basenameL p,
          sizeBytes := w.fs.size p, errMsg := e.msg })) ∧
    (∀ w1 merged, classify p = ArchiveFormat.SplitZip →
      join_zip_parts w (dirnameL p) (splitFirst ".zip.".data (basenameL p)) =
        (w1, some merged) →
      extract_zip w1 merged d (w.fs.size p) cb = (w2, evs, Except.error e) →
      extract_archive w p d cb = (w2, evs,
        { kind := OutcomeKind.failed, name := [], sizeBytes := 0, errMsg := e.msg })) := by
  refine ⟨?_, ?_, ?_, ?_⟩
  · intro hcls hrun
    unfold extract_archive
    rw [hex, hcls]
    simp only [Bool.not_true, Bool.false_eq_true, if_false]
    rw [hrun]
    rfl
  · intro hcls hrun
    unfold extract_archive
    rw [hex, hcls]
    simp only [Bool.not_true, Bool.false_eq_true, if_false]
    rw [hrun]
    rfl
  · intro hcls hrun
    unfold extract_archive
    rw [hex, hcls]
    simp only [Bool.not_true, Bool.false_eq_true, if_false]
    rw [hrun]
    rfl
  · intro w1 merged hcls hjoin hrun
    unfold extract_archive
    rw [hex, hcls]
    simp only [Bool.not_true, Bool.false_eq_true, if_false, extract_split_zip, hjoin]
    rw [hrun]

theorem extract_archive_converts_handler_errors_witness :
    extract_archive cwZipBad "a.zip".data "out".data true =
      (cwZipBad, [], { kind := OutcomeKind.failed, name := "a.zip".data,
                       sizeBytes := 3, errMsg := "bad".data }) := by
  have h := (extract_archive_converts_handler_errors cwZipBad "a.zip".data "out".data true
    (PyErr.badZipFile "bad".data) cwZipBad [] (by decide)).1 (by decide) rfl
  exact h

/-- C2 counterexample: a SplitZip job whose merged file is a corrupt ZIP.
The extraction fails, and after `extract_archive` returns, the merged
temporary file `d/A_merged.zip` still exists on disk — refuting the
claim that the merged file is deleted unconditionally whether the
recursive extraction succeeded or failed. -/
theorem merged_file_survives_failed_extraction :
    ((extract_archive cwSplitBad "d/A.zip.001".data "out".data true).2.2).kind =
      OutcomeKind.failed ∧
    (extract_archive cwSplitBad "d/A.zip.001".data "out".data true).1.fs.hasFile
      "d/A_merged.zip".data = true := by
  decide

/-- C2 amended: the merged temporary file is deleted only on the success
path of `_extract_split_zip`.  If the recursive ZIP extraction returns
normally, the merged file no longer exists in the final filesystem; if
it raises, the `except` handler at line 183 returns the failure outcome
without deleting anything, so the final world is exactly the one the
failed extraction left (in which the merged file still exists unless
that run itself removed it). -/
theorem merged_cleanup_only_on_success (w w1 w2 : World) (p d merged : Str) (cb : Bool)
    (evs : List Ev) (r : Except PyErr Unit)
    (hex : w.fs.hasFile p = true)
    (hcls : classify p = ArchiveFormat.SplitZip)
    (hjoin : join_zip_parts w (dirnameL p) (splitFirst ".zip.".data (basenameL p)) =
      (w1, some merged))
    (hrun : extract_zip w1 merged d (w.fs.size p) cb = (w2, evs, r)) :
    (r = Except.ok () → (extract_archive w p d cb).1.fs.hasFile merged = false) ∧
    (∀ e, r = Except.error e → (extract_archive w p d cb).1 = w2) := by
  constructor
  · intro hok
    subst hok
    unfold extract_archive
    rw [hex, hcls]
    simp only [Bool.not_true, Bool.false_eq_true, if_false, extract_split_zip, hjoin]
    rw [hrun]
    by_cases hm : w2.fs.hasFile merged = true
    · simp [hm, hasFile_remove]
    · simp [hm]
  · intro e herr
    subst herr
    unfold extract_archive
    rw [hex, hcls]
    simp only [Bool.not_true, Bool.false_eq_true, if_false, extract_split_zip, hjoin]
    rw [hrun]

theorem merged_cleanup_only_on_success_witness :
    (extract_archive cwSplitGood "d/A.zip.001".data "out".data true).1.fs.hasFile
      "d/A_merged.zip".data = false := by
  have h := merged_cleanup_only_on_success cwSplitGood _ _ "d/A.zip.001".data "out".data
    "d/A_merged.zip".data true _ _ (by decide) (by decide) rfl rfl
  exact h.1 rfl

/-- C5: when segments 1..m exist and segment m+1 does not (m at least 1),
and the merged path can be opened for writing, `join_zip_parts` collects
exactly the leading contiguous run `{base}.zip.001` .. `{base}.zip.{m}`,
writes a file named `{base}_merged.zip` in the same directory whose
bytes are the strict concatenation of the collected segments' full
contents in ascending index order, and returns that file's path. -/
theorem join_zip_parts_merges_leading_run (w : World) (folder base : Str) (m : Nat)
    (hm : 1 ≤ m)
    (hex : ∀ j, 1 ≤ j → j ≤ m → w.fs.hasFile (partPath folder base j) = true)
    (hmiss : w.fs.hasFile (partPath folder base (m + 1)) = false)
    (hw : w.writeOk (pathJoin folder (base ++ "_merged.zip".data)) = true) :
    collectParts w.fs folder base =
      (List.range m).map (fun j => partPath folder base (1 + j)) ∧
    join_zip_parts w folder base =
      ({ w with fs := w.fs.write (pathJoin folder (base ++ "_merged.zip".data)) (((List.range m).map (fun j => (w.fs.get (partPath folder base (1 + j))).getD [])).flatten) },
       some (pathJoin folder (base ++ "_merged.zip".data))) := by
  have hcp := collectParts_eq w.fs folder base m hex hmiss
  have hcontents : ((List.range m).map (fun j => partPath folder base (1 + j))).foldl
      (fun acc q => acc ++ (w.fs.get q).getD []) [] =
      ((List.range m).map
        (fun j => (w.fs.get (partPath folder base (1 + j))).getD [])).flatten := by
    rw [foldl_append_eq_flatten (fun q => (w.fs.get q).getD []), List.nil_append,
      List.map_map]
    rfl
  have hne : ¬((List.range m).map (fun j => partPath folder base (1 + j))).isEmpty = true := by
    have hm0 : m ≠ 0 := by omega
    simp [List.isEmpty_iff, List.range_eq_nil, hm0]
  refine ⟨hcp, ?_⟩
  simp only [join_zip_parts]
  rw [hcp, if_neg hne, if_pos hw, hcontents]

theorem join_zip_parts_merges_leading_run_witness :
    join_zip_parts cwSegs "d".data "A".data =
      ({ cwSegs with fs := cwSegs.fs.write "d/A_merged.zip".data [1, 2, 3] },
       some "d/A_merged.zip".data) := by
  have h := join_zip_parts_merges_leading_run cwSegs "d".data "A".data 2 (by omega)
    (by intro j h1 h2; interval_cases j <;> decide) (by decide) (by decide)
  exact h.2
